import Mathlib

/-!
Verification of the HIRA classification-tree crawler suite.

The repository contains several Python crawler variants that walk a 3-level
classification taxonomy (major → middle → minor) rendered by a stateful UI:

* `hira_hierarchical_crawler.py` — `parse_korean_text`, `get_level_items`
  (index-based slot scan with a consecutive-miss rule and a hard index cap),
  `crawl_hierarchy` (3 nested loops, records appended per minor).
* `hira_deep_classification_mapper.py` — `extract_current_level_items`
  (first-50 grid rows, per-call dedup by text), `click_item_safely`
  (3 escalating click tiers), `traverse_deep_classification_tree`
  (records partial rows for childless majors/middles).
* `hira_classification_mapper.py` — `extract_tree_items` (first-30 rows,
  post-loop dedup by text), `ensure_popup_page` (single recreation attempt),
  `traverse_classification_tree`.
* `hira_classification_mapper_detailed.py` — first-30 unique-text extraction.
* `hira_full_tree_crawler.py` — `explore_classification_tree` (recursive walk
  with a `collected_paths` set keyed by the joined path string).
* `hira_crawler.py` — `ensure_popup_page` / `search_and_download` / `run`
  (per-code loop over seed codes, results appended even on failure).

Everything below is a shallow embedding of those functions: pure Lean
functions over explicit UI-snapshot models, mirroring the Python control flow
(loops become folds or fuel-indexed recursion, exceptions become explicit
outcome constructors).  I/O, logging, sleeps and the browser bootstrap are
not modelled; they do not affect the data-flow properties proved here.
-/

namespace Hira

/-! ### Character classes and Python `str.strip`

`isPySpace` approximates Python's notion of whitespace (used both by
`str.strip()` and by the regex class `\s` in Unicode mode) on the code-point
repertoire occurring in this program: ASCII whitespace, NEL, NBSP, the
information-separator block, OGHAM space, the U+2000 range, LS/PS, NNBSP,
MMSP and the ideographic space U+3000 (which appears literally in the
source's `skip_patterns`). -/

def isPySpace (c : Char) : Bool :=
  let n := c.toNat
  (9 ≤ n && n ≤ 13) || n = 32 || (28 ≤ n && n ≤ 31) || n = 133 || n = 160 ||
    n = 5760 || (8192 ≤ n && n ≤ 8202) || n = 8232 || n = 8233 || n = 8239 ||
    n = 8287 || n = 12288

/-- The class `[A-Z]`. -/
def isUpperAZ (c : Char) : Bool :=
  65 ≤ c.toNat && c.toNat ≤ 90

/-- The class `[0-9]` (Python `\d` also admits other Unicode decimal digits;
none occur in this program's data). -/
def isDigit09 (c : Char) : Bool :=
  48 ≤ c.toNat && c.toNat ≤ 57

/-- The class `[A-Z0-9]`. -/
def isCodeChar (c : Char) : Bool :=
  isUpperAZ c || isDigit09 c

/-- Python `str.strip()` on a character list. -/
def pyStripL (cs : List Char) : List Char :=
  ((cs.dropWhile isPySpace).reverse.dropWhile isPySpace).reverse

/-- Python `str.strip()`. -/
def pyStrip (s : String) : String :=
  ⟨pyStripL s.data⟩

/-! ### `parse_korean_text` (hira_hierarchical_crawler.py, lines 70–114)

The function strips its input and then tries three regexes in order:

1. `^(.+?)\s*\(([^)]+)\)\s*$`  — "name(code)";
2. `^([A-Z0-9]+)\s+(.+)$`      — "code name";
3. `^(\d+[A-Z]*)\s+(.+)$`      — "digits+letters name" (subsumed by 2);

falling back to `{"name": text, "code": ""}`.  Each matcher below implements
the exact backtracking semantics of the corresponding Python pattern:
`.` never matches a newline, `$` also matches just before a single trailing
newline, lazy `.+?` takes the shortest viable prefix, and greedy runs over a
character class followed by a character outside that class are deterministic.
-/

/-- Result of `parse_korean_text`: a `name`/`code` pair. -/
structure ParsedKV where
  name : String
  code : String
  deriving DecidableEq, Repr

/-- Matcher for the suffix part `\s*\(([^)]+)\)\s*$` of pattern 1: skip the
maximal whitespace run (greedy `\s*` before a non-space `(` is
deterministic), require `(`, take the maximal `)`‑free run as group 2
(nonempty), require `)`, and require the rest to be all whitespace
(`\s*$`, with `$` absorbed since a final newline is itself whitespace). -/
def match1Rest (rest : List Char) : Option (List Char) :=
  match rest.dropWhile isPySpace with
  | '(' :: r2 =>
    let inner := r2.takeWhile (fun c => c ≠ ')')
    match r2.dropWhile (fun c => c ≠ ')') with
    | ')' :: tail =>
      if inner ≠ [] && tail.all isPySpace then some inner else none
    | _ => none
  | _ => none

/-- Lazy `(.+?)` of pattern 1: extend group 1 one character at a time
(stopping at a newline, which `.` cannot match) until the rest matches. -/
def match1Go (g1rev rest : List Char) : Option (List Char × List Char) :=
  match rest with
  | [] => none
  | c :: rest' =>
    if c = '\n' then none
    else
      match match1Rest rest' with
      | some g2 => some ((c :: g1rev).reverse, g2)
      | none => match1Go (c :: g1rev) rest'

/-- `re.match(r'^(.+?)\s*\(([^)]+)\)\s*$', text)`, returning
(group 1, group 2) on success. -/
def match1 (cs : List Char) : Option (List Char × List Char) :=
  match1Go [] cs

/-- `(.+)$` applied to a remainder `m`: `.` cannot cross a newline and `$`
matches at the end or just before a single final newline, so the match
succeeds iff `m` minus an optional trailing newline is nonempty and
newline-free, in which case that is the captured group. -/
def dotPlusDollar (m : List Char) : Option (List Char) :=
  let m' := match m.reverse with
    | '\n' :: r => r.reverse
    | _ => m
  if m' ≠ [] && m'.all (fun c => c ≠ '\n') then some m' else none

/-- Backtracking for `\s+(.+)$`: the greedy `\s+` first takes the whole
whitespace run `ws` (leaving `m`), then gives characters back one at a time,
but must keep at least one. `wsRev` is the reversed not-yet-given-back part
of the run. -/
def wsGroupSearch (wsRev m : List Char) : Option (List Char) :=
  match dotPlusDollar m with
  | some g => some g
  | none =>
    match wsRev with
    | [] => none
    | [_] => none
    | c :: rest => wsGroupSearch rest (c :: m)

/-- `re.match(r'^([A-Z0-9]+)\s+(.+)$', text)`.  The greedy `[A-Z0-9]+` and
the following `\s+` are over disjoint classes, so both take their maximal
runs deterministically. -/
def match2 (cs : List Char) : Option (List Char × List Char) :=
  let g1 := cs.takeWhile isCodeChar
  let r1 := cs.dropWhile isCodeChar
  if g1 = [] then none
  else
    let ws := r1.takeWhile isPySpace
    if ws = [] then none
    else
      match wsGroupSearch ws.reverse (r1.dropWhile isPySpace) with
      | some g2 => some (g1, g2)
      | none => none

/-- `re.match(r'^(\d+[A-Z]*)\s+(.+)$', text)`: a digits run, then a capital
run (all three adjacent classes are pairwise disjoint, hence deterministic),
then the same `\s+(.+)$` machinery as pattern 2. -/
def match3 (cs : List Char) : Option (List Char × List Char) :=
  let ds := cs.takeWhile isDigit09
  if ds = [] then none
  else
    let r := cs.dropWhile isDigit09
    let ls := r.takeWhile isUpperAZ
    let r1 := r.dropWhile isUpperAZ
    let ws := r1.takeWhile isPySpace
    if ws = [] then none
    else
      match wsGroupSearch ws.reverse (r1.dropWhile isPySpace) with
      | some g2 => some (ds ++ ls, g2)
      | none => none

/-- `parse_korean_text` (hira_hierarchical_crawler.py:70).  The surrounding
`try/except` is dead code: none of the string operations raise.  Groups are
`.strip()`ed exactly as in the source. -/
def parseKoreanText (s : String) : ParsedKV :=
  let t := pyStripL s.data
  match match1 t with
  | some (g1, g2) => ⟨⟨pyStripL g1⟩, ⟨pyStripL g2⟩⟩
  | none =>
    match match2 t with
    | some (g1, g2) => ⟨⟨pyStripL g2⟩, ⟨pyStripL g1⟩⟩
    | none =>
      match match3 t with
      | some (g1, g2) => ⟨⟨pyStripL g2⟩, ⟨pyStripL g1⟩⟩
      | none => ⟨⟨t⟩, ""⟩

/-! Supporting lemmas about `parse_korean_text`. -/

theorem dropWhile_eq_self_of_all {p : Char → Bool} {l : List Char}
    (h : ∀ c ∈ l, p c = false) : l.dropWhile p = l := by
  cases l with
  | nil => rfl
  | cons a t => simp [List.dropWhile_cons, h a (by simp)]

theorem pyStripL_eq_self {l : List Char}
    (h : ∀ c ∈ l, isPySpace c = false) : pyStripL l = l := by
  unfold pyStripL
  rw [dropWhile_eq_self_of_all h,
    dropWhile_eq_self_of_all (fun c hc => h c (List.mem_reverse.mp hc)),
    List.reverse_reverse]

theorem isCodeChar_not_space {c : Char} (h : isCodeChar c = true) :
    isPySpace c = false := by
  simp only [isCodeChar, isUpperAZ, isDigit09, Bool.or_eq_true,
    Bool.and_eq_true, decide_eq_true_eq] at h
  simp only [isPySpace, Bool.or_eq_false_iff, Bool.and_eq_false_iff,
    decide_eq_false_iff_not]
  omega

theorem isDigit09_not_space {c : Char} (h : isDigit09 c = true) :
    isPySpace c = false :=
  isCodeChar_not_space (by simp [isCodeChar, h])

theorem isUpperAZ_not_space {c : Char} (h : isUpperAZ c = true) :
    isPySpace c = false :=
  isCodeChar_not_space (by simp [isCodeChar, h])

/-- If pattern 2 matches, its first group is the (nonempty) maximal
`[A-Z0-9]` prefix run. -/
theorem match2_some_inv {cs g1 g2 : List Char}
    (h : match2 cs = some (g1, g2)) :
    g1 = cs.takeWhile isCodeChar ∧ cs.takeWhile isCodeChar ≠ [] := by
  simp only [match2] at h
  split at h
  · exact absurd h (by simp)
  · split at h
    · exact absurd h (by simp)
    · split at h
      · rename_i hg _ _ _ _
        simp only [Option.some.injEq, Prod.mk.injEq] at h
        exact ⟨h.1.symm, hg⟩
      · exact absurd h (by simp)

/-- If pattern 3 matches, its first group is the (nonempty) digit run
followed by the capital run. -/
theorem match3_some_inv {cs g1 g2 : List Char}
    (h : match3 cs = some (g1, g2)) :
    g1 = cs.takeWhile isDigit09 ++
        (cs.dropWhile isDigit09).takeWhile isUpperAZ ∧
      cs.takeWhile isDigit09 ≠ [] := by
  simp only [match3] at h
  split at h
  · exact absurd h (by simp)
  · split at h
    · exact absurd h (by simp)
    · split at h
      · rename_i hd _ _ _ _
        simp only [Option.some.injEq, Prod.mk.injEq] at h
        exact ⟨h.1.symm, hd⟩
      · exact absurd h (by simp)

end Hira

/-- C3: the node-text parser satisfies the three specified vectors:
`parse("일반원칙(00)") = {name: "일반원칙", code: "00"}`,
`parse("00 일반원칙") = {code: "00", name: "일반원칙"}`, and
`parse("일반원칙") = {code: "", name: "일반원칙"}`. -/
theorem parse_korean_text_spec_vectors :
    Hira.parseKoreanText "일반원칙(00)" = ⟨"일반원칙", "00"⟩ ∧
    Hira.parseKoreanText "00 일반원칙" = ⟨"일반원칙", "00"⟩ ∧
    Hira.parseKoreanText "일반원칙" = ⟨"일반원칙", ""⟩ := by
  refine ⟨?_, ?_, ?_⟩ <;> decide

/-- C9 counterexample: on the input `"a( )"` the parser returns an empty
code (pattern 1 matches with a whitespace-only parenthesized group, which is
stripped to `""`) while the returned name `"a"` differs from the raw input,
so "empty code implies name equals the raw input text" is false. -/
theorem parse_empty_code_counterexample :
    (Hira.parseKoreanText "a( )").code = "" ∧
      (Hira.parseKoreanText "a( )").name = "a" ∧
      (Hira.parseKoreanText "a( )").name ≠ "a( )" := by
  refine ⟨?_, ?_, ?_⟩ <;> decide

/-- C9 (amended): for every input string, if the trailing-parenthesis
pattern does not match the stripped input and parsing yields an empty code,
then the returned name equals the *stripped* input text (the no-match
fallback: `code=""`, `name=text` after `text = text.strip()`). -/
theorem parse_empty_code_fallback_name (s : String)
    (h1 : Hira.match1 (Hira.pyStripL s.data) = none)
    (h2 : (Hira.parseKoreanText s).code = "") :
    (Hira.parseKoreanText s).name = ⟨Hira.pyStripL s.data⟩ := by
  cases hm2 : Hira.match2 (Hira.pyStripL s.data) with
  | some p =>
    obtain ⟨g1, g2⟩ := p
    exfalso
    obtain ⟨hg1, hne⟩ := Hira.match2_some_inv hm2
    have hcode : (Hira.parseKoreanText s).code = ⟨Hira.pyStripL g1⟩ := by
      simp [Hira.parseKoreanText, h1, hm2]
    rw [hcode] at h2
    have hdata := congrArg String.data h2
    simp only [String.data] at hdata
    rw [Hira.pyStripL_eq_self (fun c hc => Hira.isCodeChar_not_space
      (List.mem_takeWhile_imp (hg1 ▸ hc)))] at hdata
    exact hne (hg1 ▸ hdata)
  | none =>
    cases hm3 : Hira.match3 (Hira.pyStripL s.data) with
    | some p =>
      obtain ⟨g1, g2⟩ := p
      exfalso
      obtain ⟨hg1, hne⟩ := Hira.match3_some_inv hm3
      have hcode : (Hira.parseKoreanText s).code = ⟨Hira.pyStripL g1⟩ := by
        simp [Hira.parseKoreanText, h1, hm2, hm3]
      rw [hcode] at h2
      have hdata := congrArg String.data h2
      simp only [String.data] at hdata
      have hclean : ∀ c ∈ g1, Hira.isPySpace c = false := by
        intro c hc
        rw [hg1] at hc
        rcases List.mem_append.mp hc with hc | hc
        · exact Hira.isDigit09_not_space (List.mem_takeWhile_imp hc)
        · exact Hira.isUpperAZ_not_space (List.mem_takeWhile_imp hc)
      rw [Hira.pyStripL_eq_self hclean] at hdata
      have : (Hira.pyStripL s.data).takeWhile Hira.isDigit09 = [] := by
        have := List.append_eq_nil.mp (hg1 ▸ hdata)
        exact this.1
      exact hne this
    | none =>
      simp [Hira.parseKoreanText, h1, hm2, hm3]

/-- C9 witness: the amended theorem applied at the concrete input
`"  foo bar  "` (pattern 1 does not match; the parser falls back, so the
name is the stripped input and the code is empty). -/
theorem parse_empty_code_fallback_name_witness :
    (Hira.parseKoreanText "  foo bar  ").name = "foo bar" := by
  have h := parse_empty_code_fallback_name "  foo bar  " (by decide) (by decide)
  rw [h]
  decide

namespace Hira

/-! ### UI row snapshots

All three list-based extractors iterate `elements.nth(i)` for `i` below a
bound, inside a `try/except` that swallows any per-row exception and
continues.  A row observation is therefore: an exception somewhere during
the row's processing (`err`), or a row with a visibility flag and the value
`text_content()` returned (`none` models Python `None`). -/

inductive RowObs where
  | err : RowObs
  | row (visible : Bool) (text : Option String) : RowObs
  deriving DecidableEq, Repr

/-! ### The doubled-backslash patterns of `hira_deep_classification_mapper.py`

Lines 187, 193 and 196 use *raw* strings with doubled backslashes, e.g.
`re.search(r'\\(([A-Z][0-9]*)\\)$', text)`.  In a raw string `\\` is two
characters, which the regex engine reads as an escaped literal backslash, so
the pattern actually matched is: literal `\`, then group 1 = ( group 2 =
`[A-Z][0-9]*`, literal `\` ), then `$` — and `.group(1)` includes the second
backslash.  These helpers embed those literal-backslash patterns exactly;
on backslash-free text they never match, so the extractor's code/name split
degenerates to `code=""`, `name=text`. -/

/-- Try `\\(([A-Z][0-9]*)\\)$` at a fixed position: literal `\`, an
uppercase letter, a greedy digit run, a literal `\`, then end of string (or
a single final newline, which `$` also accepts).  Returns group 1 — letter,
digits and the trailing backslash. -/
def bsParenAt (suffix : List Char) : Option (List Char) :=
  match suffix with
  | '\\' :: c :: rest =>
    if isUpperAZ c then
      match rest.dropWhile isDigit09 with
      | '\\' :: tail =>
        if tail = [] ∨ tail = ['\n'] then
          some (c :: (rest.takeWhile isDigit09 ++ ['\\']))
        else none
      | _ => none
    else none
  | _ => none

/-- `re.search` of the pattern above: leftmost matching position, returning
(group 1, match start). -/
def bsParenSearch : List Char → Nat → Option (List Char × Nat)
  | [], _ => none
  | c :: t, i =>
    match bsParenAt (c :: t) with
    | some g => some (g, i)
    | none => bsParenSearch t (i + 1)

/-- Try `\\b([A-Z][0-9]*)\\b` at a fixed position: literal `\`, the letter
`b`, group 1 = `[A-Z][0-9]*`, literal `\`, the letter `b`.  Group 1 has no
backslash here. -/
def bsWordAt (suffix : List Char) : Option (List Char) :=
  match suffix with
  | '\\' :: 'b' :: c :: rest =>
    if isUpperAZ c then
      match rest.dropWhile isDigit09 with
      | '\\' :: 'b' :: _ => some (c :: rest.takeWhile isDigit09)
      | _ => none
    else none
  | _ => none

/-- `re.search(r'\\b([A-Z][0-9]*)\\b', text)`: leftmost match's group 1. -/
def bsWordSearch : List Char → Option (List Char)
  | [] => none
  | c :: t =>
    match bsWordAt (c :: t) with
    | some g => some g
    | none => bsWordSearch t

/-- Try the substitution pattern `\\([A-Z][0-9]*\\)` — literal `\`, group of
letter + digits + literal `\` — at a fixed position; returns the remainder
after the match. -/
def bsSubAt (suffix : List Char) : Option (List Char) :=
  match suffix with
  | '\\' :: c :: rest =>
    if isUpperAZ c then
      match rest.dropWhile isDigit09 with
      | '\\' :: tail => some tail
      | _ => none
    else none
  | _ => none

/-- One fuel-indexed pass of `re.sub(r'\\([A-Z][0-9]*\\)', '', text)`
(leftmost, non-overlapping).  Every step consumes at least one character, so
fuel `l.length` never runs out. -/
def bsSubRemoveF : Nat → List Char → List Char
  | 0, l => l
  | _ + 1, [] => []
  | fuel + 1, c :: t =>
    match bsSubAt (c :: t) with
    | some tail => bsSubRemoveF fuel tail
    | none => c :: bsSubRemoveF fuel t

/-- `re.sub(r'\\([A-Z][0-9]*\\)', '', text)`. -/
def bsSubRemove (l : List Char) : List Char :=
  bsSubRemoveF l.length l

/-- The code/name split of `extract_current_level_items`
(hira_deep_classification_mapper.py:182–196): default `code=""`,
`name=text`; then the doubled-backslash paren pattern, else the
doubled-backslash word pattern. -/
def deepParse (t : List Char) : String × String :=
  match bsParenSearch t 0 with
  | some (g1, start) => (⟨g1⟩, ⟨pyStripL (t.take start)⟩)
  | none =>
    match bsWordSearch t with
    | some g => (⟨g⟩, ⟨pyStripL (bsSubRemove t)⟩)
    | none => ("", ⟨t⟩)

/-! ### `extract_current_level_items` (hira_deep_classification_mapper.py:139) -/

/-- An extracted sibling node (the live `element` locator is represented by
its slot `index`; it is only ever used to re-click the same slot). -/
structure DeepItem where
  text : String
  code : String
  name : String
  index : Nat
  deriving DecidableEq, Repr

/-- `skip_patterns = ['분류명(분류코드)', '', ' ', '　']` (the last three are
unreachable after the strip-nonempty check but kept verbatim). -/
def skipPatternsDeep : List String := ["분류명(분류코드)", "", " ", "　"]

/-- One iteration of the `for i in range(min(count, 50))` loop: state is
(`seen_texts`, `unique_items`). -/
def deepStep (rows : List RowObs) (st : List String × List DeepItem)
    (i : Nat) : List String × List DeepItem :=
  match rows.getD i .err with
  | .err => st
  | .row visible txt =>
    if !visible then st
    else
      match txt with
      | none => st
      | some t0 =>
        if pyStrip t0 = "" then st
        else
          let t := pyStrip t0
          if t ∈ skipPatternsDeep then st
          else if t ∈ st.1 then st
          else
            let p := deepParse t.data
            (t :: st.1, st.2 ++ [⟨t, p.1, p.2, i⟩])

/-- `extract_current_level_items`: zero rows short-circuits to `[]`; then at
most the first 50 rows are examined, with per-call dedup by stripped text. -/
def extractCurrentLevelItems (rows : List RowObs) : List DeepItem :=
  if rows.length = 0 then []
  else ((List.range (min rows.length 50)).foldl (deepStep rows) ([], [])).2

/-! ### `extract_tree_items` (hira_classification_mapper.py:452)

Selector fallback is not modelled: `rows` stands for the elements matched by
the first selector that yields any item.  Attribute reads and the
inner-element analysis (lines 507–527) only feed logging; any exception they
raise is covered by `RowObs.err`. -/

/-- Hangul syllables `[가-힣]` (U+AC00–U+D7A3). -/
def isHangulSyl (c : Char) : Bool :=
  0xAC00 ≤ c.toNat && c.toNat ≤ 0xD7A3

/-- Python (Unicode) `\w` restricted to the repertoire this program handles:
ASCII alphanumerics, underscore, Hangul syllables and jamo. -/
def isWordChar (c : Char) : Bool :=
  (97 ≤ c.toNat && c.toNat ≤ 122) || isUpperAZ c || isDigit09 c ||
    c = '_' || isHangulSyl c ||
    (0x1100 ≤ c.toNat && c.toNat ≤ 0x11FF) ||
    (0x3131 ≤ c.toNat && c.toNat ≤ 0x318E)

/-- `re.match(r'^[A-Z][0-9]*$', pc)`: one capital then digits to the end
(`pc` is pre-stripped, so the trailing-newline case of `$` is vacuous). -/
def fullCodeShape (cs : List Char) : Bool :=
  match cs with
  | c :: rest => isUpperAZ c && rest.all isDigit09
  | [] => false

/-- Try `\(([A-Z][0-9]*)\)$` at a fixed position (this file's pattern has
*single* backslashes, i.e. real parentheses). -/
def parenCodeAt (suffix : List Char) : Option (List Char) :=
  match suffix with
  | '(' :: c :: rest =>
    if isUpperAZ c then
      match rest.dropWhile isDigit09 with
      | [')'] => some (c :: rest.takeWhile isDigit09)
      | [')', '\n'] => some (c :: rest.takeWhile isDigit09)
      | _ => none
    else none
  | _ => none

/-- `re.search(r'\(([A-Z][0-9]*)\)$', text)`: leftmost position whose suffix
matches, with the match start. -/
def parenCodeSearch : List Char → Nat → Option (List Char × Nat)
  | [], _ => none
  | c :: t, i =>
    match parenCodeAt (c :: t) with
    | some g => some (g, i)
    | none => parenCodeSearch t (i + 1)

/-- `re.search(r'[A-Z](?![가-힣])', text)`: first capital letter not
immediately followed by a Hangul syllable. -/
def upperNotHangul : List Char → Option Char
  | [] => none
  | c :: rest =>
    if isUpperAZ c &&
        (match rest with
          | [] => true
          | d :: _ => !isHangulSyl d) then
      some c
    else upperNotHangul rest

/-- Try `[A-Z][0-9]*` with a trailing `\b` at a position already known to
have a leading word boundary; returns (group, remainder after the match). -/
def wbTokenAt (l : List Char) : Option (List Char × List Char) :=
  match l with
  | c :: rest =>
    if isUpperAZ c then
      let ds := rest.takeWhile isDigit09
      match rest.dropWhile isDigit09 with
      | [] => some (c :: ds, [])
      | d :: tail =>
        if isWordChar d then none else some (c :: ds, d :: tail)
    else none
  | [] => none

/-- `re.search(r'\b([A-Z][0-9]*)\b', text)`: scan left to right carrying
whether the previous character is a word character (a boundary before the
leading `[A-Z]` requires it not to be). -/
def wbSearch (prevWord : Bool) : List Char → Option (List Char)
  | [] => none
  | c :: rest =>
    if !prevWord then
      match wbTokenAt (c :: rest) with
      | some (g, _) => some g
      | none => wbSearch (isWordChar c) rest
    else wbSearch (isWordChar c) rest

/-- Fuel-indexed `re.sub(r'\b[A-Z][0-9]*\b', '', text)` (leftmost,
non-overlapping; after a removal the scan resumes after the removed token,
whose last character is a word character).  Every step consumes at least one
character, so fuel `l.length` never runs out. -/
def wbSubF : Nat → Bool → List Char → List Char
  | 0, _, l => l
  | _ + 1, _, [] => []
  | fuel + 1, prevWord, c :: rest =>
    if !prevWord then
      match wbTokenAt (c :: rest) with
      | some (_, tail) => wbSubF fuel true tail
      | none => c :: wbSubF fuel (isWordChar c) rest
    else c :: wbSubF fuel (isWordChar c) rest

/-- `re.sub(r'\b[A-Z][0-9]*\b', '', text)`. -/
def wbSub (l : List Char) : List Char :=
  wbSubF l.length false l

/-- ASCII lowercasing (`str.lower()` on the ASCII letters; other characters,
including Hangul, are unchanged). -/
def asciiLower (c : Char) : Char :=
  if isUpperAZ c then Char.ofNat (c.toNat + 32) else c

/-- The code/name split of `extract_tree_items`
(hira_classification_mapper.py:545–584): the `"CODE: name"` colon pattern,
else the trailing-paren pattern with the capital-not-before-Hangul fallback,
else the word-boundary code search with boundary-aware substitution. -/
def parseTreeText (t : List Char) : String × String :=
  if ':' ∈ t then
    let pre := pyStripL (t.takeWhile (fun c => c ≠ ':'))
    let post := pyStripL ((t.dropWhile (fun c => c ≠ ':')).drop 1)
    if fullCodeShape pre then (⟨pre⟩, ⟨post⟩) else ("", ⟨t⟩)
  else if '(' ∈ t && ')' ∈ t then
    match parenCodeSearch t 0 with
    | some (g, start) => (⟨g⟩, ⟨pyStripL (t.take start)⟩)
    | none =>
      match upperNotHangul t with
      | some c => (⟨[c]⟩, ⟨t⟩)
      | none => ("", ⟨t⟩)
  else
    match wbSearch false t with
    | some g =>
      let n := pyStripL (wbSub t)
      (⟨g⟩, if n = [] then ⟨t⟩ else ⟨n⟩)
    | none => ("", ⟨t⟩)

/-- An item of `extract_tree_items` (locator represented by its index). -/
structure TreeItem where
  text : String
  code : String
  name : String
  index : Nat
  deriving DecidableEq, Repr

/-- One iteration of the `for i in range(min(count, 30))` loop of
`extract_tree_items` (the two `skip_patterns` `'undefined'`/`'null'` are
compared lowercased; `len(text.strip()) < 1` is dead after the nonempty
check but kept verbatim). -/
def treeStep (rows : List RowObs) (acc : List TreeItem) (i : Nat) :
    List TreeItem :=
  match rows.getD i .err with
  | .err => acc
  | .row visible txt =>
    if !visible then acc
    else
      match txt with
      | none => acc
      | some t0 =>
        if pyStrip t0 = "" then acc
        else
          let t := pyStrip t0
          if t.data.map asciiLower = "undefined".data ∨
              t.data.map asciiLower = "null".data then acc
          else if t.length < 1 then acc
          else
            let p := parseTreeText t.data
            acc ++ [⟨t, p.1, p.2, i⟩]

/-- The raw (pre-dedup) item list of `extract_tree_items`. -/
def extractTreeItemsRaw (rows : List RowObs) : List TreeItem :=
  (List.range (min rows.length 30)).foldl (treeStep rows) []

/-- The post-loop dedup of `extract_tree_items`
(hira_classification_mapper.py:618–627): keep the first item per text. -/
def dedupByText (seen : List String) : List TreeItem → List TreeItem
  | [] => []
  | it :: rest =>
    if it.text ∈ seen then dedupByText seen rest
    else it :: dedupByText (it.text :: seen) rest

/-- `extract_tree_items`: bounded raw extraction, then dedup by text. -/
def extractTreeItems (rows : List RowObs) : List TreeItem :=
  dedupByText [] (extractTreeItemsRaw rows)

/-! ### The inline first-30 unique-text extraction of
`traverse_classification_tree_detailed`
(hira_classification_mapper_detailed.py:226–245).  Note: the seen-check
happens before `not text.strip()` is ever tested, so a whitespace-only text
is appended (as `""`) on first occurrence. -/

/-- One iteration; state is (`seen_texts`, unique stripped texts in
order). -/
def detailedStep (rows : List RowObs) (st : List String × List String)
    (i : Nat) : List String × List String :=
  match rows.getD i .err with
  | .err => st
  | .row visible txt =>
    if !visible then st
    else
      match txt with
      | none => st
      | some t0 =>
        if t0 = "" then st
        else if pyStrip t0 ∈ st.1 then st
        else (pyStrip t0 :: st.1, st.2 ++ [pyStrip t0])

/-- The unique-text list the detailed traversal iterates over. -/
def extractDetailedUnique (rows : List RowObs) : List String :=
  if rows.length = 0 then []
  else ((List.range (min rows.length 30)).foldl (detailedStep rows) ([], [])).2

/-! ### Dedup invariants (claim C8) -/

theorem nodup_append_singleton {α : Type} {l : List α} {a : α}
    (h : l.Nodup) (ha : a ∉ l) : (l ++ [a]).Nodup := by
  rw [List.nodup_append]
  refine ⟨h, List.nodup_singleton a, ?_⟩
  intro x hx hx'
  rw [List.mem_singleton] at hx'
  exact ha (hx' ▸ hx)

/-- `deepStep` either leaves the state unchanged or appends one item whose
text was not yet seen (and records it as seen). -/
theorem deepStep_shape (rows : List RowObs)
    (st : List String × List DeepItem) (i : Nat) :
    deepStep rows st i = st ∨
      ∃ it : DeepItem, it.text ∉ st.1 ∧
        deepStep rows st i = (it.text :: st.1, st.2 ++ [it]) := by
  unfold deepStep
  dsimp only
  split
  · exact Or.inl rfl
  · split
    · exact Or.inl rfl
    · split
      · exact Or.inl rfl
      · split
        · exact Or.inl rfl
        · split
          · exact Or.inl rfl
          · split
            · exact Or.inl rfl
            · rename_i hnot
              exact Or.inr ⟨⟨_, _, _, i⟩, hnot, rfl⟩

/-- Folding `deepStep` preserves: collected texts are distinct and all
recorded as seen. -/
theorem foldl_deepStep_inv (rows : List RowObs) (l : List Nat) :
    ∀ st : List String × List DeepItem,
      (st.2.map DeepItem.text).Nodup →
      (∀ x ∈ st.2.map DeepItem.text, x ∈ st.1) →
      ((l.foldl (deepStep rows) st).2.map DeepItem.text).Nodup ∧
        ∀ x ∈ ((l.foldl (deepStep rows) st).2.map DeepItem.text),
          x ∈ (l.foldl (deepStep rows) st).1 := by
  induction l with
  | nil => exact fun st h1 h2 => ⟨h1, h2⟩
  | cons i l ih =>
    intro st h1 h2
    simp only [List.foldl_cons]
    rcases deepStep_shape rows st i with heq | ⟨it, hnot, heq⟩
    · rw [heq]; exact ih st h1 h2
    · rw [heq]
      apply ih
      · simp only [List.map_append, List.map_cons, List.map_nil]
        exact nodup_append_singleton h1 (fun hmem => hnot (h2 _ hmem))
      · intro x hx
        simp only [List.map_append, List.map_cons, List.map_nil,
          List.mem_append, List.mem_singleton] at hx
        rcases hx with hx | hx
        · exact List.mem_cons_of_mem _ (h2 _ hx)
        · exact hx ▸ List.mem_cons_self _ _

/-- `dedupByText` yields items with pairwise-distinct texts, none of them
previously seen. -/
theorem dedupByText_nodup (l : List TreeItem) :
    ∀ seen : List String,
      ((dedupByText seen l).map TreeItem.text).Nodup ∧
        ∀ x ∈ (dedupByText seen l).map TreeItem.text, x ∉ seen := by
  induction l with
  | nil => intro seen; simp [dedupByText]
  | cons it rest ih =>
    intro seen
    by_cases h : it.text ∈ seen
    · simp only [dedupByText, if_pos h]
      exact ih seen
    · simp only [dedupByText, if_neg h, List.map_cons, List.nodup_cons]
      obtain ⟨ihn, ihs⟩ := ih (it.text :: seen)
      refine ⟨⟨fun hmem => ?_, ihn⟩, ?_⟩
      · exact ihs _ hmem (List.mem_cons_self _ _)
      · intro x hx
        rcases List.mem_cons.mp hx with hx | hx
        · exact hx ▸ h
        · intro hxs
          exact ihs x hx (List.mem_cons_of_mem _ hxs)

end Hira

/-- C8: within one extraction call, the returned sibling list has pairwise
distinct raw texts — both for `extract_current_level_items` (deep mapper,
in-loop `seen_texts` dedup) and for `extract_tree_items` (classification
mapper, post-loop dedup). -/
theorem extraction_texts_nodup (rows : List Hira.RowObs) :
    ((Hira.extractCurrentLevelItems rows).map Hira.DeepItem.text).Nodup ∧
      ((Hira.extractTreeItems rows).map Hira.TreeItem.text).Nodup := by
  constructor
  · unfold Hira.extractCurrentLevelItems
    split
    · simp
    · exact (Hira.foldl_deepStep_inv rows _ ([], []) (by simp) (by simp)).1
  · exact (Hira.dedupByText_nodup (Hira.extractTreeItemsRaw rows) []).1

namespace Hira

/-! ### `get_level_items` (hira_hierarchical_crawler.py:218–325)

The extractor locates `#{item_base}{index}` for increasing slot indices.
One slot observation is: the locator matched nothing (`missing`), matched
but stayed invisible even after `scroll_into_view_if_needed` (`hidden`),
text extraction raised (`textErr`), or produced a text (`textOf`; Python
`None` from `text_content()` behaves like `""` in the `if inner_text and
inner_text.strip()` guard, so both are `textOf` with a blank string). -/

inductive Slot where
  | missing : Slot
  | hidden : Slot
  | textErr : Slot
  | textOf (t : String) : Slot
  deriving DecidableEq, Repr

/-- An item of `get_level_items`' result list (dict with keys
`name`, `code`, `index`, `element_id`, `raw_text`). -/
structure HItem where
  name : String
  code : String
  index : Nat
  element_id : String
  raw_text : String
  deriving DecidableEq, Repr

/-- The item appended for a visible slot `index` with text `t`:
`parse_korean_text(inner_text.strip())` plus the id `f"{item_base}{index}"`. -/
def mkHItem (base : String) (index : Nat) (t : String) : HItem :=
  let r := pyStrip t
  let p := parseKoreanText r
  ⟨p.name, p.code, index, base ++ toString index, r⟩

/-- The `while consecutive_failures < 10` loop of `get_level_items`,
fuel-indexed.  Control-flow notes mirroring the source exactly:
the `missing`/`hidden` paths `continue` *before* the `index > 1000` cap
check (so the cap is only tested on the fall-through paths); `textErr`
increments the failure counter but falls through; a blank text neither
resets nor increments the counter; a nonempty text appends an item and
resets the counter.  `index` is incremented at the end of every iteration
and the loop `break`s when it exceeds 1000 on a fall-through path.  Fuel is
inert: every iteration strictly decreases
`(1001 - index) * 11 + (10 - cf)`, which is at most 11021 from the initial
state, and `loopFuel` exceeds that (see `getLoopF_fuel_stable`). -/
def getLoopF (slots : Nat → Slot) (base : String) :
    Nat → Nat → Nat → List HItem → List HItem
  | 0, _, _, acc => acc
  | fuel + 1, index, cf, acc =>
    if 10 ≤ cf then acc
    else
      match slots index with
      | .missing => getLoopF slots base fuel (index + 1) (cf + 1) acc
      | .hidden => getLoopF slots base fuel (index + 1) (cf + 1) acc
      | .textErr =>
        if 1000 < index + 1 then acc
        else getLoopF slots base fuel (index + 1) (cf + 1) acc
      | .textOf t =>
        if pyStrip t = "" then
          if 1000 < index + 1 then acc
          else getLoopF slots base fuel (index + 1) cf acc
        else
          if 1000 < index + 1 then acc ++ [mkHItem base index t]
          else getLoopF slots base fuel (index + 1) 0 (acc ++ [mkHItem base index t])

/-- Fuel budget for `getLoopF`, strictly above the loop's maximal
iteration-measure 11021. -/
def loopFuel : Nat := 11100

/-- `get_level_items` (scrolling only affects which slots are `hidden` and
is part of the slot observation; the container-wait and logging are
side-effect-free here). -/
def getLevelItems (slots : Nat → Slot) (base : String) : List HItem :=
  getLoopF slots base loopFuel 0 0 []

/-! Step equations for `getLoopF`, phrased for a nonzero fuel literal. -/

theorem getLoopF_missing {slots : Nat → Slot} {base : String}
    {fuel index cf : Nat} {acc : List HItem}
    (h : cf < 10) (hs : slots index = .missing) :
    getLoopF slots base (fuel + 1) index cf acc
      = getLoopF slots base fuel (index + 1) (cf + 1) acc := by
  simp only [getLoopF, hs]
  rw [if_neg (by omega)]

theorem getLoopF_hidden {slots : Nat → Slot} {base : String}
    {fuel index cf : Nat} {acc : List HItem}
    (h : cf < 10) (hs : slots index = .hidden) :
    getLoopF slots base (fuel + 1) index cf acc
      = getLoopF slots base fuel (index + 1) (cf + 1) acc := by
  simp only [getLoopF, hs]
  rw [if_neg (by omega)]

theorem getLoopF_text {slots : Nat → Slot} {base : String}
    {fuel index cf : Nat} {acc : List HItem} {t : String}
    (h : cf < 10) (hs : slots index = .textOf t) (ht : pyStrip t ≠ "")
    (hc : index ≤ 999) :
    getLoopF slots base (fuel + 1) index cf acc
      = getLoopF slots base fuel (index + 1) 0 (acc ++ [mkHItem base index t]) := by
  simp only [getLoopF, hs]
  rw [if_neg (by omega), if_neg ht, if_neg (by omega)]

theorem getLoopF_exit {slots : Nat → Slot} {base : String}
    {fuel index cf : Nat} {acc : List HItem} (h : 10 ≤ cf) :
    getLoopF slots base fuel index cf acc = acc := by
  cases fuel with
  | zero => rfl
  | succ n =>
    simp only [getLoopF]
    rw [if_pos h]

theorem getLoopF_textErr_stop {slots : Nat → Slot} {base : String}
    {fuel index cf : Nat} {acc : List HItem}
    (h : cf < 10) (hs : slots index = .textErr) (hc : 1000 < index + 1) :
    getLoopF slots base (fuel + 1) index cf acc = acc := by
  simp only [getLoopF, hs]
  rw [if_neg (by omega), if_pos hc]

theorem getLoopF_textErr_go {slots : Nat → Slot} {base : String}
    {fuel index cf : Nat} {acc : List HItem}
    (h : cf < 10) (hs : slots index = .textErr) (hc : ¬ 1000 < index + 1) :
    getLoopF slots base (fuel + 1) index cf acc
      = getLoopF slots base fuel (index + 1) (cf + 1) acc := by
  simp only [getLoopF, hs]
  rw [if_neg (by omega), if_neg hc]

theorem getLoopF_blank_stop {slots : Nat → Slot} {base : String}
    {fuel index cf : Nat} {acc : List HItem} {t : String}
    (h : cf < 10) (hs : slots index = .textOf t) (ht : pyStrip t = "")
    (hc : 1000 < index + 1) :
    getLoopF slots base (fuel + 1) index cf acc = acc := by
  simp only [getLoopF, hs]
  rw [if_neg (by omega), if_pos ht, if_pos hc]

theorem getLoopF_blank_go {slots : Nat → Slot} {base : String}
    {fuel index cf : Nat} {acc : List HItem} {t : String}
    (h : cf < 10) (hs : slots index = .textOf t) (ht : pyStrip t = "")
    (hc : ¬ 1000 < index + 1) :
    getLoopF slots base (fuel + 1) index cf acc
      = getLoopF slots base fuel (index + 1) cf acc := by
  simp only [getLoopF, hs]
  rw [if_neg (by omega), if_pos ht, if_neg hc]

theorem getLoopF_text_stop {slots : Nat → Slot} {base : String}
    {fuel index cf : Nat} {acc : List HItem} {t : String}
    (h : cf < 10) (hs : slots index = .textOf t) (ht : pyStrip t ≠ "")
    (hc : 1000 < index + 1) :
    getLoopF slots base (fuel + 1) index cf acc
      = acc ++ [mkHItem base index t] := by
  simp only [getLoopF, hs]
  rw [if_neg (by omega), if_neg ht, if_pos hc]

/-! Variants taking `fuel ≠ 0`, convenient for chaining on literals. -/

theorem getLoopF_missing' {slots : Nat → Slot} {base : String}
    {fuel index cf : Nat} {acc : List HItem}
    (hf : fuel ≠ 0) (h : cf < 10) (hs : slots index = .missing) :
    getLoopF slots base fuel index cf acc
      = getLoopF slots base (fuel - 1) (index + 1) (cf + 1) acc := by
  cases fuel with
  | zero => exact absurd rfl hf
  | succ n => simpa using getLoopF_missing h hs

theorem getLoopF_text' {slots : Nat → Slot} {base : String}
    {fuel index cf : Nat} {acc : List HItem} {t : String}
    (hf : fuel ≠ 0) (h : cf < 10) (hs : slots index = .textOf t)
    (ht : pyStrip t ≠ "") (hc : index ≤ 999) :
    getLoopF slots base fuel index cf acc
      = getLoopF slots base (fuel - 1) (index + 1) 0 (acc ++ [mkHItem base index t]) := by
  cases fuel with
  | zero => exact absurd rfl hf
  | succ n => simpa using getLoopF_text h hs ht hc

/-- Fuel is inert above the loop measure: with more than
`(1001 - index) * 11 + (10 - cf)` fuel units, one more unit does not change
the result.  This certifies that `loopFuel` (11100 > 11021) never cuts the
loop short, i.e. the embedding agrees with the unbounded `while` loop. -/
theorem getLoopF_fuel_stable (slots : Nat → Slot) (base : String) :
    ∀ fuel index cf acc, (1001 - index) * 11 + (10 - cf) < fuel →
      getLoopF slots base fuel index cf acc
        = getLoopF slots base (fuel + 1) index cf acc := by
  intro fuel
  induction fuel with
  | zero => intro index cf acc h; omega
  | succ n ih =>
    intro index cf acc h
    by_cases h10 : 10 ≤ cf
    · rw [getLoopF_exit h10, getLoopF_exit h10]
    · cases hs : slots index with
      | missing =>
        rw [getLoopF_missing (by omega) hs, getLoopF_missing (by omega) hs]
        by_cases hi : index ≤ 1000
        · exact ih _ _ _ (by omega)
        · exact ih _ _ _ (by omega)
      | hidden =>
        rw [getLoopF_hidden (by omega) hs, getLoopF_hidden (by omega) hs]
        by_cases hi : index ≤ 1000
        · exact ih _ _ _ (by omega)
        · exact ih _ _ _ (by omega)
      | textErr =>
        by_cases hc : 1000 < index + 1
        · rw [getLoopF_textErr_stop (by omega) hs hc,
            getLoopF_textErr_stop (by omega) hs hc]
        · rw [getLoopF_textErr_go (by omega) hs hc,
            getLoopF_textErr_go (by omega) hs hc]
          exact ih _ _ _ (by omega)
      | textOf t =>
        by_cases ht : pyStrip t = ""
        · by_cases hc : 1000 < index + 1
          · rw [getLoopF_blank_stop (by omega) hs ht hc,
              getLoopF_blank_stop (by omega) hs ht hc]
          · rw [getLoopF_blank_go (by omega) hs ht hc,
              getLoopF_blank_go (by omega) hs ht hc]
            exact ih _ _ _ (by omega)
        · by_cases hc : 1000 < index + 1
          · rw [getLoopF_text_stop (by omega) hs ht hc,
              getLoopF_text_stop (by omega) hs ht hc]
          · rw [getLoopF_text (by omega) hs ht (by omega),
              getLoopF_text (by omega) hs ht (by omega)]
            exact ih _ _ _ (by omega)

end Hira

/-- C4: on every synthetic slot layout populated exactly at indices
0, 1, 2, 5, 9 (nonblank texts) and empty from 10 through at least 30
(slots beyond 30 wholly unconstrained — the scan provably never reaches
them, let alone the 1000 cap), `get_level_items` returns exactly the five
populated nodes, terminating via the 10-consecutive-miss rule. -/
theorem get_level_items_sparse_slots (slots : Nat → Hira.Slot) (base : String)
    (t0 t1 t2 t5 t9 : String)
    (h0 : slots 0 = .textOf t0) (h1 : slots 1 = .textOf t1)
    (h2 : slots 2 = .textOf t2) (h5 : slots 5 = .textOf t5)
    (h9 : slots 9 = .textOf t9)
    (e3 : slots 3 = .missing) (e4 : slots 4 = .missing)
    (e6 : slots 6 = .missing) (e7 : slots 7 = .missing)
    (e8 : slots 8 = .missing)
    (n0 : Hira.pyStrip t0 ≠ "") (n1 : Hira.pyStrip t1 ≠ "")
    (n2 : Hira.pyStrip t2 ≠ "") (n5 : Hira.pyStrip t5 ≠ "")
    (n9 : Hira.pyStrip t9 ≠ "")
    (hmiss : ∀ i < 31, 10 ≤ i → slots i = .missing) :
    Hira.getLevelItems slots base =
      [Hira.mkHItem base 0 t0, Hira.mkHItem base 1 t1, Hira.mkHItem base 2 t2,
        Hira.mkHItem base 5 t5, Hira.mkHItem base 9 t9] := by
  unfold Hira.getLevelItems Hira.loopFuel
  rw [Hira.getLoopF_text' (by norm_num) (by norm_num) h0 n0 (by norm_num)]
  norm_num
  rw [Hira.getLoopF_text' (by norm_num) (by norm_num) h1 n1 (by norm_num)]
  norm_num
  rw [Hira.getLoopF_text' (by norm_num) (by norm_num) h2 n2 (by norm_num)]
  norm_num
  rw [Hira.getLoopF_missing' (by norm_num) (by norm_num) e3]
  norm_num
  rw [Hira.getLoopF_missing' (by norm_num) (by norm_num) e4]
  norm_num
  rw [Hira.getLoopF_text' (by norm_num) (by norm_num) h5 n5 (by norm_num)]
  norm_num
  rw [Hira.getLoopF_missing' (by norm_num) (by norm_num) e6]
  norm_num
  rw [Hira.getLoopF_missing' (by norm_num) (by norm_num) e7]
  norm_num
  rw [Hira.getLoopF_missing' (by norm_num) (by norm_num) e8]
  norm_num
  rw [Hira.getLoopF_text' (by norm_num) (by norm_num) h9 n9 (by norm_num)]
  norm_num
  rw [Hira.getLoopF_missing' (by norm_num) (by norm_num) (hmiss 10 (by norm_num) (by norm_num))]
  norm_num
  rw [Hira.getLoopF_missing' (by norm_num) (by norm_num) (hmiss 11 (by norm_num) (by norm_num))]
  norm_num
  rw [Hira.getLoopF_missing' (by norm_num) (by norm_num) (hmiss 12 (by norm_num) (by norm_num))]
  norm_num
  rw [Hira.getLoopF_missing' (by norm_num) (by norm_num) (hmiss 13 (by norm_num) (by norm_num))]
  norm_num
  rw [Hira.getLoopF_missing' (by norm_num) (by norm_num) (hmiss 14 (by norm_num) (by norm_num))]
  norm_num
  rw [Hira.getLoopF_missing' (by norm_num) (by norm_num) (hmiss 15 (by norm_num) (by norm_num))]
  norm_num
  rw [Hira.getLoopF_missing' (by norm_num) (by norm_num) (hmiss 16 (by norm_num) (by norm_num))]
  norm_num
  rw [Hira.getLoopF_missing' (by norm_num) (by norm_num) (hmiss 17 (by norm_num) (by norm_num))]
  norm_num
  rw [Hira.getLoopF_missing' (by norm_num) (by norm_num) (hmiss 18 (by norm_num) (by norm_num))]
  norm_num
  rw [Hira.getLoopF_missing' (by norm_num) (by norm_num) (hmiss 19 (by norm_num) (by norm_num))]
  norm_num
  rw [Hira.getLoopF_exit (by norm_num)]

namespace Hira

theorem mkHItem_index (base : String) (i : Nat) (t : String) :
    (mkHItem base i t).index = i := rfl

/-- Any item the slot loop ever appends sits at an index at most 1009:
below the 1000 cap the residual miss allowance keeps indices within
`1000 + 9`, and past the cap each visited slot either stops the loop or
consumes one of the at most `10 - cf` remaining misses. -/
theorem getLoopF_index_le (slots : Nat → Slot) (base : String) :
    ∀ fuel index cf acc (it : HItem),
      it ∈ getLoopF slots base fuel index cf acc →
      it ∈ acc ∨ it.index ≤ 1009 ∨
        (1000 < index ∧ it.index ≤ index + 9 - cf) := by
  intro fuel
  induction fuel with
  | zero => exact fun index cf acc it h => Or.inl h
  | succ n ih =>
    intro index cf acc it h
    by_cases h10 : 10 ≤ cf
    · rw [getLoopF_exit h10] at h
      exact Or.inl h
    · cases hs : slots index with
      | missing =>
        rw [getLoopF_missing (by omega) hs] at h
        rcases ih _ _ _ _ h with h' | h' | ⟨h1, h2⟩
        · exact Or.inl h'
        · exact Or.inr (Or.inl h')
        · rcases Nat.lt_or_ge 1000 index with hi | hi
          · exact Or.inr (Or.inr ⟨hi, by omega⟩)
          · exact Or.inr (Or.inl (by omega))
      | hidden =>
        rw [getLoopF_hidden (by omega) hs] at h
        rcases ih _ _ _ _ h with h' | h' | ⟨h1, h2⟩
        · exact Or.inl h'
        · exact Or.inr (Or.inl h')
        · rcases Nat.lt_or_ge 1000 index with hi | hi
          · exact Or.inr (Or.inr ⟨hi, by omega⟩)
          · exact Or.inr (Or.inl (by omega))
      | textErr =>
        by_cases hc : 1000 < index + 1
        · rw [getLoopF_textErr_stop (by omega) hs hc] at h
          exact Or.inl h
        · rw [getLoopF_textErr_go (by omega) hs hc] at h
          rcases ih _ _ _ _ h with h' | h' | ⟨h1, h2⟩
          · exact Or.inl h'
          · exact Or.inr (Or.inl h')
          · exact absurd h1 (by omega)
      | textOf t =>
        by_cases ht : pyStrip t = ""
        · by_cases hc : 1000 < index + 1
          · rw [getLoopF_blank_stop (by omega) hs ht hc] at h
            exact Or.inl h
          · rw [getLoopF_blank_go (by omega) hs ht hc] at h
            rcases ih _ _ _ _ h with h' | h' | ⟨h1, h2⟩
            · exact Or.inl h'
            · exact Or.inr (Or.inl h')
            · exact absurd h1 (by omega)
        · by_cases hc : 1000 < index + 1
          · rw [getLoopF_text_stop (by omega) hs ht hc] at h
            rcases List.mem_append.mp h with h' | h'
            · exact Or.inl h'
            · rw [List.mem_singleton.mp h', mkHItem_index]
              rcases Nat.lt_or_ge 1000 index with hi | hi
              · exact Or.inr (Or.inr ⟨hi, by omega⟩)
              · exact Or.inr (Or.inl (by omega))
          · rw [getLoopF_text (by omega) hs ht (by omega)] at h
            rcases ih _ _ _ _ h with h' | h' | ⟨h1, h2⟩
            · rcases List.mem_append.mp h' with h'' | h''
              · exact Or.inl h''
              · rw [List.mem_singleton.mp h'', mkHItem_index]
                exact Or.inr (Or.inl (by omega))
            · exact Or.inr (Or.inl h')
            · exact absurd h1 (by omega)

/-- Every item `get_level_items` returns has slot index at most 1009. -/
theorem getLevelItems_index_le (slots : Nat → Slot) (base : String)
    (it : HItem) (h : it ∈ getLevelItems slots base) : it.index ≤ 1009 := by
  rcases getLoopF_index_le slots base loopFuel 0 0 [] it h with h' | h' | ⟨h1, _⟩
  · exact absurd h' (List.not_mem_nil it)
  · exact h'
  · exact absurd h1 (by omega)

/-! ### `crawl_hierarchy` (hira_hierarchical_crawler.py:363–438)

Three nested loops: majors, middles (after clicking the major), minors
(after clicking the middle); a record is appended per minor with no
dedup anywhere.  A failed click (`click_item` returns `False`) or an empty
child list makes the loop `continue` — in particular a major with no
middles, or a middle with no minors, contributes *nothing* to the output.
The UI model indexes each deeper level's slot table by the slot indices of
the clicked ancestors; `click_item`'s existence/visibility checks and click
are abstracted into a per-`element_id` success flag. -/

def majorBase : String := "InfoBank_RvStdInqIdxPL_form_grdIdxDiv1_body_gridrow_"

def middleBase : String := "InfoBank_RvStdInqIdxPL_form_grdIdxDiv2_body_gridrow_"

def minorBase : String := "InfoBank_RvStdInqIdxPL_form_grdIdxDiv3_body_gridrow_"

structure HierUI where
  majorSlots : Nat → Slot
  middleSlots : Nat → Nat → Slot
  minorSlots : Nat → Nat → Nat → Slot
  clickOk : String → Bool

/-- One output row of `crawl_hierarchy` (the `수집시간` timestamp column is
not modelled). -/
structure HRecord where
  majorCode : String
  majorName : String
  middleCode : String
  middleName : String
  minorCode : String
  minorName : String
  deriving DecidableEq, Repr

/-- Concatenation of per-element contributions (each loop iteration appends
only rows belonging to its own element, so the accumulated list is the
concatenation in iteration order). -/
def listFlat {α β : Type} (f : α → List β) : List α → List β
  | [] => []
  | a :: l => f a ++ listFlat f l

theorem listFlat_append {α β : Type} (f : α → List β) (l1 l2 : List α) :
    listFlat f (l1 ++ l2) = listFlat f l1 ++ listFlat f l2 := by
  induction l1 with
  | nil => rfl
  | cons a l ih => simp [listFlat, ih]

/-- The records contributed by one middle item under a clicked major. -/
def hierMiddle (ui : HierUI) (ma : HItem) (mi : HItem) : List HRecord :=
  if ui.clickOk mi.element_id then
    let minors := getLevelItems (ui.minorSlots ma.index mi.index) minorBase
    if minors = [] then []
    else minors.map (fun mo =>
      ⟨ma.code, ma.name, mi.code, mi.name, mo.code, mo.name⟩)
  else []

/-- The records contributed by one major item. -/
def hierMajor (ui : HierUI) (ma : HItem) : List HRecord :=
  if ui.clickOk ma.element_id then
    let middles := getLevelItems (ui.middleSlots ma.index) middleBase
    if middles = [] then []
    else listFlat (hierMiddle ui ma) middles
  else []

/-- `crawl_hierarchy`: the accumulated `hierarchical_data` list. -/
def crawlHierarchy (ui : HierUI) : List HRecord :=
  let majors := getLevelItems ui.majorSlots majorBase
  if majors = [] then []
  else listFlat (hierMajor ui) majors

end Hira

/-- C1 counterexample: `crawl_hierarchy` performs no leaf-path dedup at
all.  On a UI whose minor level renders the same text in two slots, the
output contains two rows with identical (majorText, middleText, minorText)
triples — in fact two fully identical rows. -/
def c1ui : Hira.HierUI where
  majorSlots := fun i => if i = 0 then .textOf "AA 대분류가" else .missing
  middleSlots := fun _ i => if i = 0 then .textOf "BB 중분류나" else .missing
  minorSlots := fun _ _ i =>
    if i = 0 then .textOf "CC 소분류다"
    else if i = 1 then .textOf "CC 소분류다"
    else .missing
  clickOk := fun _ => true

/-- C1 counterexample theorem: the hierarchical crawler's record set for
`c1ui` is two identical rows, violating "no two rows with identical leaf
triples". -/
theorem crawl_hierarchy_duplicate_leaf :
    Hira.crawlHierarchy c1ui =
      [⟨"AA", "대분류가", "BB", "중분류나", "CC", "소분류다"⟩,
        ⟨"AA", "대분류가", "BB", "중분류나", "CC", "소분류다"⟩] ∧
      ¬ ((Hira.crawlHierarchy c1ui).map
          (fun r => (r.majorName, r.middleName, r.minorName))).Nodup := by
  constructor
  · decide
  · decide

/-- C2 counterexample UI: one major, no middles anywhere. -/
def c2ui : Hira.HierUI where
  majorSlots := fun i => if i = 0 then .textOf "AA 대분류가" else .missing
  middleSlots := fun _ _ => .missing
  minorSlots := fun _ _ _ => .missing
  clickOk := fun _ => true

/-- C2 counterexample theorem: in `crawl_hierarchy` a major whose
middle-level extraction comes back empty is *silently dropped* — the major
list is nonempty and its click succeeds, the middle extraction is empty,
and the output contains no record at all (the claimed partial record is
never appended). -/
theorem crawl_hierarchy_childless_major_dropped :
    Hira.getLevelItems c2ui.majorSlots Hira.majorBase ≠ [] ∧
      Hira.getLevelItems (c2ui.middleSlots 0) Hira.middleBase = [] ∧
      Hira.crawlHierarchy c2ui = [] := by
  refine ⟨?_, ?_, ?_⟩ <;> decide

/-- Concrete sparse slot layout witnessing C4. -/
def c4slots : Nat → Hira.Slot := fun i =>
  if i = 0 then .textOf "00 일반원칙"
  else if i = 1 then .textOf "01 가산율"
  else if i = 2 then .textOf "02 기본진료료"
  else if i = 5 then .textOf "05 주사료"
  else if i = 9 then .textOf "09 처치료"
  else .missing

namespace Hira

/-! ### `click_item_safely` (hira_deep_classification_mapper.py:219–239)

Three escalating click tiers in nested `try/except`: a plain `click`, a
`click(force=True)`, then a JavaScript `element.click()`.  Each attempted
tier either succeeds (`ok`) or raises (`exn`). -/

inductive TierRes where
  | ok : TierRes
  | exn : TierRes
  deriving DecidableEq, Repr

/-- The outcome each tier *would* have if attempted. -/
structure ClickBehavior where
  t1 : TierRes
  t2 : TierRes
  t3 : TierRes
  deriving DecidableEq, Repr

/-- `click_item_safely`: `True` at the first tier that succeeds, `False`
only when all three tiers raised. -/
def clickItemSafely (b : ClickBehavior) : Bool :=
  match b.t1 with
  | .ok => true
  | .exn =>
    match b.t2 with
    | .ok => true
    | .exn =>
      match b.t3 with
      | .ok => true
      | .exn => false

/-- The tiers actually attempted, in order (a ghost observer of the same
nested `try/except`). -/
def clickTiersAttempted (b : ClickBehavior) : List Nat :=
  match b.t1 with
  | .ok => [1]
  | .exn =>
    match b.t2 with
    | .ok => [1, 2]
    | .exn => [1, 2, 3]

/-! ### `traverse_deep_classification_tree`
(hira_deep_classification_mapper.py:251–386)

Each loop level wraps its body in `try/except: continue`, so one bad node
only loses its own subtree's records; a failed `click_item_safely`
explicitly `continue`s.  Deeper levels' row snapshots are indexed by the
slot indices of the clicked ancestors; the search-field auto-code read by
`get_input_field_code` is a function of the same selection state. -/

structure DeepUI where
  majors : List RowObs
  middles : Nat → List RowObs
  minors : Nat → Nat → List RowObs
  clickMajor : Nat → Bool
  clickMiddle : Nat → Nat → Bool
  clickMinor : Nat → Nat → Nat → Bool
  autoMajor : Nat → String
  autoMiddle : Nat → Nat → String
  autoMinor : Nat → Nat → Nat → String

/-- One output row of the deep mapper's `classification_data`. -/
structure DRecord where
  majorCode : String
  majorName : String
  middleCode : String
  middleName : String
  minorCode : String
  minorName : String
  autoCode : String
  fullText : String
  deriving DecidableEq, Repr

/-- Records contributed by one minor item: a failed minor click contributes
nothing; otherwise one full row. -/
def deepMinor (ui : DeepUI) (ma mi : DeepItem) (mo : DeepItem) :
    List DRecord :=
  if ui.clickMinor ma.index mi.index mo.index then
    [⟨ma.code, ma.name, mi.code, mi.name, mo.code, mo.name,
      ui.autoMinor ma.index mi.index mo.index,
      ma.text ++ " > " ++ mi.text ++ " > " ++ mo.text⟩]
  else []

/-- Records contributed by one middle item: failed click → nothing; empty
minor extraction → exactly one partial row (minor fields empty); otherwise
the minors' contributions in order. -/
def deepMiddle (ui : DeepUI) (ma : DeepItem) (mi : DeepItem) :
    List DRecord :=
  if ui.clickMiddle ma.index mi.index then
    let minors := extractCurrentLevelItems (ui.minors ma.index mi.index)
    if minors = [] then
      [⟨ma.code, ma.name, mi.code, mi.name, "", "",
        ui.autoMiddle ma.index mi.index, ma.text ++ " > " ++ mi.text⟩]
    else listFlat (deepMinor ui ma mi) minors
  else []

/-- Records contributed by one major item: failed click → nothing; empty
middle extraction → exactly one partial row (middle and minor fields
empty); otherwise the middles' contributions in order. -/
def deepMajor (ui : DeepUI) (ma : DeepItem) : List DRecord :=
  if ui.clickMajor ma.index then
    let middles := extractCurrentLevelItems (ui.middles ma.index)
    if middles = [] then
      [⟨ma.code, ma.name, "", "", "", "", ui.autoMajor ma.index, ma.text⟩]
    else listFlat (deepMiddle ui ma) middles
  else []

/-- `traverse_deep_classification_tree`: the accumulated
`classification_data` list. -/
def traverseDeep (ui : DeepUI) : List DRecord :=
  let majors := extractCurrentLevelItems ui.majors
  if majors = [] then [] else listFlat (deepMajor ui) majors

theorem mem_listFlat_of_mem {α β : Type} {f : α → List β} {l : List α}
    {x : α} {b : β} (hx : x ∈ l) (hb : b ∈ f x) : b ∈ listFlat f l := by
  induction l with
  | nil => exact absurd hx (List.not_mem_nil x)
  | cons a t ih =>
    rcases List.mem_cons.mp hx with h | h
    · exact List.mem_append.mpr (Or.inl (h ▸ hb))
    · exact List.mem_append.mpr (Or.inr (ih h))

end Hira

/-- C2 (amended, deep mapper): whenever a major item's click succeeds and
the middle-level extraction returns the empty list, that major contributes
exactly one partial record (all middle/minor fields empty), and that
partial record is in the traversal output — the childless major is not
dropped.  (The hierarchical crawler variant violates the original claim:
see `crawl_hierarchy_childless_major_dropped`.) -/
theorem deep_childless_major_partial_record (ui : Hira.DeepUI)
    (ma : Hira.DeepItem)
    (hma : ma ∈ Hira.extractCurrentLevelItems ui.majors)
    (hclick : ui.clickMajor ma.index = true)
    (hempty : Hira.extractCurrentLevelItems (ui.middles ma.index) = []) :
    Hira.deepMajor ui ma =
      [⟨ma.code, ma.name, "", "", "", "", ui.autoMajor ma.index, ma.text⟩] ∧
      (⟨ma.code, ma.name, "", "", "", "", ui.autoMajor ma.index, ma.text⟩ :
          Hira.DRecord) ∈ Hira.traverseDeep ui := by
  have h1 : Hira.deepMajor ui ma =
      [⟨ma.code, ma.name, "", "", "", "", ui.autoMajor ma.index, ma.text⟩] := by
    simp [Hira.deepMajor, hclick, hempty]
  refine ⟨h1, ?_⟩
  unfold Hira.traverseDeep
  rw [if_neg (List.ne_nil_of_mem hma)]
  exact Hira.mem_listFlat_of_mem hma (h1 ▸ List.mem_singleton.mpr rfl)

/-- Concrete UI witnessing C2's amended theorem: one major row whose
middle-level snapshot is empty. -/
def c2deepUI : Hira.DeepUI where
  majors := [.row true (some "대분류일(A)")]
  middles := fun _ => []
  minors := fun _ _ => []
  clickMajor := fun _ => true
  clickMiddle := fun _ _ => true
  clickMinor := fun _ _ _ => true
  autoMajor := fun _ => "A100"
  autoMiddle := fun _ _ => ""
  autoMinor := fun _ _ _ => ""

/-- C2 witness: the amended theorem at `c2deepUI` (the doubled-backslash
patterns never match backslash-free text, so code is empty and name is the
full text). -/
theorem deep_childless_major_partial_record_witness :
    Hira.deepMajor c2deepUI ⟨"대분류일(A)", "", "대분류일(A)", 0⟩ =
      [⟨"", "대분류일(A)", "", "", "", "", "A100", "대분류일(A)"⟩] ∧
      (⟨"", "대분류일(A)", "", "", "", "", "A100", "대분류일(A)"⟩ :
          Hira.DRecord) ∈ Hira.traverseDeep c2deepUI :=
  deep_childless_major_partial_record c2deepUI
    ⟨"대분류일(A)", "", "대분류일(A)", 0⟩ (by decide) (by decide) (by decide)

/-- C7: a per-node failure on one sibling is absorbed at the
sibling-iteration level: a minor whose click fails contributes no record,
and the records of the remaining siblings (before and after it) are exactly
what they would be had the failing sibling not been rendered at all — one
bad node never aborts the iteration over its siblings. -/
theorem failing_sibling_skipped (ui : Hira.DeepUI) (ma mi bad : Hira.DeepItem)
    (l1 l2 : List Hira.DeepItem)
    (hfail : ui.clickMinor ma.index mi.index bad.index = false) :
    Hira.deepMinor ui ma mi bad = [] ∧
      Hira.listFlat (Hira.deepMinor ui ma mi) (l1 ++ bad :: l2)
        = Hira.listFlat (Hira.deepMinor ui ma mi) (l1 ++ l2) := by
  have hz : Hira.deepMinor ui ma mi bad = [] := by
    simp [Hira.deepMinor, hfail]
  refine ⟨hz, ?_⟩
  rw [Hira.listFlat_append, Hira.listFlat_append]
  show Hira.listFlat (Hira.deepMinor ui ma mi) l1 ++
      (Hira.deepMinor ui ma mi bad ++ Hira.listFlat (Hira.deepMinor ui ma mi) l2)
        = _
  rw [hz]
  simp

/-- Concrete UI witnessing C7: the minor at slot 1 cannot be clicked. -/
def c7ui : Hira.DeepUI where
  majors := [.row true (some "대분류일(A)")]
  middles := fun _ => [.row true (some "중분류일(B)")]
  minors := fun _ _ =>
    [.row true (some "소분류일(C)"), .row true (some "소분류이(D)"),
      .row true (some "소분류삼(E)")]
  clickMajor := fun _ => true
  clickMiddle := fun _ _ => true
  clickMinor := fun _ _ i => decide (i ≠ 1)
  autoMajor := fun _ => ""
  autoMiddle := fun _ _ => ""
  autoMinor := fun _ _ _ => ""

/-- C7 witness: the theorem at `c7ui`, with the failing minor between two
clickable siblings. -/
theorem failing_sibling_skipped_witness :
    Hira.deepMinor c7ui ⟨"대분류일(A)", "", "대분류일(A)", 0⟩
        ⟨"중분류일(B)", "", "중분류일(B)", 0⟩
        ⟨"소분류이(D)", "", "소분류이(D)", 1⟩ = [] ∧
      Hira.listFlat
          (Hira.deepMinor c7ui ⟨"대분류일(A)", "", "대분류일(A)", 0⟩
            ⟨"중분류일(B)", "", "중분류일(B)", 0⟩)
          ([⟨"소분류일(C)", "", "소분류일(C)", 0⟩] ++
            ⟨"소분류이(D)", "", "소분류이(D)", 1⟩ ::
              [⟨"소분류삼(E)", "", "소분류삼(E)", 2⟩])
        = Hira.listFlat
            (Hira.deepMinor c7ui ⟨"대분류일(A)", "", "대분류일(A)", 0⟩
              ⟨"중분류일(B)", "", "중분류일(B)", 0⟩)
            ([⟨"소분류일(C)", "", "소분류일(C)", 0⟩] ++
              [⟨"소분류삼(E)", "", "소분류삼(E)", 2⟩]) :=
  failing_sibling_skipped c7ui _ _ _ _ _ (by decide)

/-- C6: the click protocol attempts the three escalating tiers in order,
stops at the first success, reports success iff some tier succeeds, and
reports failure only after all three tiers were attempted and failed. -/
theorem click_three_tiers (b : Hira.ClickBehavior) :
    (Hira.clickItemSafely b = true ↔
        (b.t1 = .ok ∨ b.t2 = .ok ∨ b.t3 = .ok)) ∧
      (b.t1 = .ok → Hira.clickTiersAttempted b = [1]) ∧
      (b.t1 = .exn → b.t2 = .ok → Hira.clickTiersAttempted b = [1, 2]) ∧
      (b.t1 = .exn → b.t2 = .exn → Hira.clickTiersAttempted b = [1, 2, 3]) ∧
      (Hira.clickItemSafely b = false ↔
        (b.t1 = .exn ∧ b.t2 = .exn ∧ b.t3 = .exn)) := by
  obtain ⟨t1, t2, t3⟩ := b
  cases t1 <;> cases t2 <;> cases t3 <;> decide

/-- C6 witness: first tier raises, second succeeds — the click reports
success and exactly tiers 1 and 2 were attempted. -/
theorem click_three_tiers_witness :
    Hira.clickItemSafely ⟨.exn, .ok, .exn⟩ = true ∧
      Hira.clickTiersAttempted ⟨.exn, .ok, .exn⟩ = [1, 2] := by
  have h := click_three_tiers ⟨.exn, .ok, .exn⟩
  exact ⟨h.1.mpr (Or.inr (Or.inl rfl)), h.2.2.1 rfl rfl⟩

namespace Hira

/-! ### `explore_classification_tree` (hira_full_tree_crawler.py:284–346)

A recursive walk with a `collected_paths : Set[str]` keyed by
`' → '.join(path)`.  At depth 3 a new key is added and
`process_final_classification` appends exactly one result row (its trailing
`self.results.append(result)` runs unconditionally).  At smaller depths the
walk iterates the current level's elements: blank texts are skipped, a
click that raises is caught and skipped, otherwise the walk recurses with
the stripped text appended to the path.  `reset_classification_state` only
re-opens the modal (the model's snapshots are already path-indexed, so it
is the identity here).  Depth is bounded by the `len(path) >= 3` guard, so
fuel `4` from the empty path is never exhausted. -/

/-- Traversal state: the dedup set (as a list) and the joined path keys of
the appended result rows, in order. -/
structure ExploreSt where
  collected : List String
  resultKeys : List String
  deriving DecidableEq, Repr

/-- UI for the full-tree walk: texts of the elements rendered at a given
path, and per-element click success. -/
structure FullUI where
  elems : List String → List String
  clickOk : List String → String → Bool

/-- `' → '.join(path)`. -/
def joinPath (path : List String) : String :=
  String.intercalate " → " path

/-- The body of the sibling loop at one element text `t`; `go` is the
recursive call at the extended path. -/
def exploreStep (ui : FullUI) (go : List String → ExploreSt → ExploreSt)
    (path : List String) (st : ExploreSt) (t : String) : ExploreSt :=
  if pyStrip t = "" then st
  else if ui.clickOk path (pyStrip t) then go (path ++ [pyStrip t]) st
  else st

/-- `explore_classification_tree`. -/
def explore (ui : FullUI) : Nat → List String → ExploreSt → ExploreSt
  | 0, _, st => st
  | fuel + 1, path, st =>
    if 3 ≤ path.length then
      if joinPath path ∈ st.collected then st
      else ⟨joinPath path :: st.collected, st.resultKeys ++ [joinPath path]⟩
    else (ui.elems path).foldl (exploreStep ui (explore ui fuel) path) st

/-- A whole run: `explore_classification_tree(page)` from the empty path
with empty state. -/
def exploreTree (ui : FullUI) : ExploreSt :=
  explore ui 4 [] ⟨[], []⟩

/-- The run invariant: result keys are pairwise distinct and all recorded
in the collected set. -/
def exploreInv (st : ExploreSt) : Prop :=
  st.resultKeys.Nodup ∧ ∀ k ∈ st.resultKeys, k ∈ st.collected

theorem foldl_exploreStep_inv (ui : FullUI)
    (go : List String → ExploreSt → ExploreSt) (path : List String)
    (hgo : ∀ p st, exploreInv st → exploreInv (go p st)) :
    ∀ (l : List String) (st : ExploreSt), exploreInv st →
      exploreInv (l.foldl (exploreStep ui go path) st) := by
  intro l
  induction l with
  | nil => exact fun st h => h
  | cons t rest ih =>
    intro st h
    simp only [List.foldl_cons]
    apply ih
    unfold exploreStep
    by_cases h1 : pyStrip t = ""
    · rwa [if_pos h1]
    · rw [if_neg h1]
      by_cases h2 : ui.clickOk path (pyStrip t)
      · rw [if_pos h2]
        exact hgo _ _ h
      · rwa [if_neg h2]

theorem explore_inv (ui : FullUI) :
    ∀ fuel path st, exploreInv st → exploreInv (explore ui fuel path st) := by
  intro fuel
  induction fuel with
  | zero => exact fun path st h => h
  | succ n ih =>
    intro path st h
    unfold explore
    by_cases hd : 3 ≤ path.length
    · rw [if_pos hd]
      by_cases hk : joinPath path ∈ st.collected
      · rwa [if_pos hk]
      · rw [if_neg hk]
        obtain ⟨h1, h2⟩ := h
        constructor
        · exact nodup_append_singleton h1 (fun hmem => hk (h2 _ hmem))
        · intro k hkmem
          rcases List.mem_append.mp hkmem with hm | hm
          · exact List.mem_cons_of_mem _ (h2 _ hm)
          · exact (List.mem_singleton.mp hm) ▸ List.mem_cons_self _ _
    · rw [if_neg hd]
      exact foldl_exploreStep_inv ui (explore ui n) path ih _ st h

end Hira

/-- C1 (amended): the full-tree crawler's run dedups by the joined
major→middle→minor path string: for every UI, the result rows' path keys
are pairwise distinct, so no leaf path is recorded twice.  (The
hierarchical crawler variant violates the original claim — it appends rows
with no dedup at all: see `crawl_hierarchy_duplicate_leaf`.) -/
theorem full_tree_result_keys_nodup (ui : Hira.FullUI) :
    (Hira.exploreTree ui).resultKeys.Nodup :=
  (Hira.explore_inv ui 4 [] ⟨[], []⟩ ⟨List.nodup_nil, by simp⟩).1

namespace Hira

/-! ### `ensure_popup_page` / `search_and_download` / `run`
(hira_crawler.py:123–141, 232–334, 336–390)

`ensure_popup_page` returns the given page if it is still open; otherwise
it calls `open_popup_page` *once* — there is no retry loop, no retry
budget, and no `SessionUnrecoverable` error anywhere.  A raising
`open_popup_page` is caught inside `search_and_download`, which records a
failure result for that code and returns; `run` appends the result and
continues with the next code.  `run` also passes the *same* original page
object to every `search_and_download` call (the reassignment of `page`
inside `search_and_download` is local), so a closed initial page triggers
one recreation attempt per code.  `hira_classification_mapper.py`'s
`ensure_popup_page` (lines 197–205) is identical in structure. -/

/-- Outcome of one `open_popup_page` call: a live page, or an exception. -/
inductive RecreateRes where
  | ok : RecreateRes
  | fail : RecreateRes
  deriving DecidableEq, Repr

/-- Environment: outcome of the n-th recreation attempt, and the download
behaviour per code once a live page is at hand. -/
structure CrawlEnv where
  recreate : Nat → RecreateRes
  dlOk : String → Bool
  noData : String → Bool

/-- One entry of `self.results` (the `filename`/`timestamp` fields and the
verbatim exception text are not modelled; `error` keeps the source's
distinguished cases). -/
structure CodeResult where
  code : String
  success : Bool
  error : Option String
  deriving DecidableEq, Repr

/-- `search_and_download` after a live page was secured: download success,
else the "no data" sentinel, else a generic download failure. -/
def resultAfterPage (env : CrawlEnv) (code : String) : CodeResult :=
  if env.dlOk code then ⟨code, true, none⟩
  else if env.noData code then ⟨code, false, some "조회 결과 없음"⟩
  else ⟨code, false, some "다운로드 불가"⟩

/-- `search_and_download` including its `ensure_popup_page` preamble; the
second component counts recreation attempts made so far. -/
def searchAndDownload (env : CrawlEnv) (pageOpen : Bool) (attempts : Nat)
    (code : String) : CodeResult × Nat :=
  if pageOpen then (resultAfterPage env code, attempts)
  else
    match env.recreate attempts with
    | .ok => (resultAfterPage env code, attempts + 1)
    | .fail => (⟨code, false, some "팝업 페이지 접근 실패"⟩, attempts + 1)

/-- The per-code loop of `run`, threading (results, recreation attempts). -/
def runFrom (env : CrawlEnv) (pageOpen : Bool) :
    List String → List CodeResult × Nat → List CodeResult × Nat
  | [], st => st
  | code :: rest, st =>
    let r := searchAndDownload env pageOpen st.2 code
    runFrom env pageOpen rest (st.1 ++ [r.1], r.2)

/-- `run`: process every code from an empty result list. -/
def runCrawler (env : CrawlEnv) (pageOpen : Bool) (codes : List String) :
    List CodeResult × Nat :=
  runFrom env pageOpen codes ([], 0)

theorem runFrom_append (env : CrawlEnv) (pageOpen : Bool)
    (l1 l2 : List String) :
    ∀ st, runFrom env pageOpen (l1 ++ l2) st
      = runFrom env pageOpen l2 (runFrom env pageOpen l1 st) := by
  induction l1 with
  | nil => intro st; rfl
  | cons c rest ih =>
    intro st
    simp only [List.cons_append, runFrom]
    exact ih _

theorem runFrom_length (env : CrawlEnv) (pageOpen : Bool)
    (codes : List String) :
    ∀ st, (runFrom env pageOpen codes st).1.length
      = st.1.length + codes.length := by
  induction codes with
  | nil => intro st; simp [runFrom]
  | cons c rest ih =>
    intro st
    simp only [runFrom, ih]
    simp
    omega

theorem runFrom_attempts_le (env : CrawlEnv) (pageOpen : Bool)
    (codes : List String) :
    ∀ st, (runFrom env pageOpen codes st).2 ≤ st.2 + codes.length := by
  induction codes with
  | nil => intro st; simp [runFrom]
  | cons c rest ih =>
    intro st
    simp only [runFrom]
    refine le_trans (ih _) ?_
    have : (searchAndDownload env pageOpen st.2 c).2 ≤ st.2 + 1 := by
      unfold searchAndDownload
      split
      · omega
      · split <;> omega
    simp only [List.length_cons]
    omega

theorem runFrom_results_shift (env : CrawlEnv) (pageOpen : Bool)
    (codes : List String) :
    ∀ res att, runFrom env pageOpen codes (res, att)
      = (res ++ (runFrom env pageOpen codes ([], att)).1,
          (runFrom env pageOpen codes ([], att)).2) := by
  induction codes with
  | nil => intro res att; simp [runFrom]
  | cons c rest ih =>
    intro res att
    simp only [runFrom, List.nil_append]
    rw [ih (res ++ [(searchAndDownload env pageOpen att c).1])
        (searchAndDownload env pageOpen att c).2,
      ih [(searchAndDownload env pageOpen att c).1]
        (searchAndDownload env pageOpen att c).2]
    simp

end Hira

/-- C5 counterexample environment: every recreation attempt fails and no
download ever succeeds. -/
def c5env : Hira.CrawlEnv where
  recreate := fun _ => .fail
  dlOk := fun _ => false
  noData := fun _ => false

/-- C5 counterexample: with a closed session and recreation failing on
every attempt, the run processes all five seed codes — five recreation
attempts happen (not the claimed fixed budget of 3), no
`SessionUnrecoverable` abort exists, and each code simply gets a failure
result. -/
theorem run_no_retry_budget_counterexample :
    (Hira.runCrawler c5env false ["c1", "c2", "c3", "c4", "c5"]).2 = 5 ∧
      (Hira.runCrawler c5env false ["c1", "c2", "c3", "c4", "c5"]).1.length
        = 5 ∧
      ∀ r ∈ (Hira.runCrawler c5env false ["c1", "c2", "c3", "c4", "c5"]).1,
        r.success = false := by
  refine ⟨?_, ?_, ?_⟩ <;> decide

/-- C5 (amended): session recovery has no per-traversal budget: each
guarded call attempts at most one recreation (so attempts never exceed the
number of codes), a failed recovery only fails that code's result, the run
never aborts (every code yields exactly one result), and results gathered
before any failure are preserved verbatim when the run continues. -/
theorem run_recovery_per_call (env : Hira.CrawlEnv) (pageOpen : Bool)
    (codes : List String) :
    (Hira.runCrawler env pageOpen codes).1.length = codes.length ∧
      (Hira.runCrawler env pageOpen codes).2 ≤ codes.length ∧
      ∀ codes2 : List String,
        (Hira.runCrawler env pageOpen (codes ++ codes2)).1
          = (Hira.runCrawler env pageOpen codes).1
            ++ (Hira.runFrom env pageOpen codes2
                ([], (Hira.runCrawler env pageOpen codes).2)).1 := by
  refine ⟨?_, ?_, ?_⟩
  · simpa using Hira.runFrom_length env pageOpen codes ([], 0)
  · simpa using Hira.runFrom_attempts_le env pageOpen codes ([], 0)
  · intro codes2
    unfold Hira.runCrawler
    rw [Hira.runFrom_append]
    have h : Hira.runFrom env pageOpen codes ([], 0)
        = ((Hira.runFrom env pageOpen codes ([], 0)).1,
            (Hira.runFrom env pageOpen codes ([], 0)).2) := rfl
    rw [h, Hira.runFrom_results_shift]

namespace Hira

/-! ### Bounded-prefix lemmas (claim C10) -/

theorem getD_take {α : Type} (l : List α) :
    ∀ n i (d : α), i < n → (l.take n).getD i d = l.getD i d := by
  induction l with
  | nil => intro n i d _; simp
  | cons a t ih =>
    intro n i d h
    cases n with
    | zero => omega
    | succ n =>
      cases i with
      | zero => simp
      | succ i => simpa using ih n i d (by omega)

theorem foldl_congr_mem {α β : Type} {f g : β → α → β} {l : List α}
    (h : ∀ a ∈ l, ∀ s, f s a = g s a) :
    ∀ s, l.foldl f s = l.foldl g s := by
  induction l with
  | nil => intro s; rfl
  | cons a t ih =>
    intro s
    simp only [List.foldl_cons]
    rw [h a (List.mem_cons_self a t)]
    exact ih (fun x hx s' => h x (List.mem_cons_of_mem a hx) s') _

theorem deepStep_take_50 (rows : List RowObs) (i : Nat) (hi : i < 50) :
    ∀ st, deepStep (rows.take 50) st i = deepStep rows st i := by
  intro st
  unfold deepStep
  rw [getD_take rows 50 i RowObs.err hi]

theorem treeStep_take_30 (rows : List RowObs) (i : Nat) (hi : i < 30) :
    ∀ acc, treeStep (rows.take 30) acc i = treeStep rows acc i := by
  intro acc
  unfold treeStep
  rw [getD_take rows 30 i RowObs.err hi]

theorem detailedStep_take_30 (rows : List RowObs) (i : Nat) (hi : i < 30) :
    ∀ st, detailedStep (rows.take 30) st i = detailedStep rows st i := by
  intro st
  unfold detailedStep
  rw [getD_take rows 30 i RowObs.err hi]

end Hira

/-- C10 counterexample: the index-based extractor's 1000 cap is only
checked on fall-through iterations, so a populated slot at index 1001
(reached after a single miss at index 1000) is still returned — a node
rendered beyond the claimed hard bound of 1000 is *not* omitted. -/
def c10slots : Nat → Hira.Slot := fun i =>
  if i % 10 = 9 then .textOf "A 구"
  else if i = 1001 then .textOf "B 목"
  else .missing

set_option maxRecDepth 100000 in
/-- C10 counterexample theorem: the extraction over `c10slots` returns 101
items and includes the node at slot index 1001 > 1000. -/
theorem extraction_beyond_cap :
    (Hira.getLevelItems c10slots "g").length = 101 ∧
      ((Hira.getLevelItems c10slots "g").any
        (fun it => decide (1000 < it.index))) = true := by
  constructor
  · decide
  · decide

/-- C10 (amended): sibling extraction inspects a bounded prefix only — the
deep mapper's variant depends on at most the first 50 rows, the
classification mapper's and the detailed mapper's variants on at most the
first 30 rows (nodes beyond those bounds are omitted), and the index-based
variant never returns a slot index above 1009 (the 1000 cap plus the at
most 9 extra slots the consecutive-miss allowance can reach, since the cap
is only tested on fall-through iterations). -/
theorem extraction_bounded_scan :
    (∀ rows : List Hira.RowObs, 50 ≤ rows.length →
        Hira.extractCurrentLevelItems rows
          = Hira.extractCurrentLevelItems (rows.take 50)) ∧
      (∀ rows : List Hira.RowObs, 30 ≤ rows.length →
        Hira.extractTreeItems rows = Hira.extractTreeItems (rows.take 30)) ∧
      (∀ rows : List Hira.RowObs, 30 ≤ rows.length →
        Hira.extractDetailedUnique rows
          = Hira.extractDetailedUnique (rows.take 30)) ∧
      (∀ (slots : Nat → Hira.Slot) (base : String) (it : Hira.HItem),
        it ∈ Hira.getLevelItems slots base → it.index ≤ 1009) := by
  refine ⟨?_, ?_, ?_, ?_⟩
  · intro rows h
    unfold Hira.extractCurrentLevelItems
    have hlen : min rows.length 50 = 50 := min_eq_right h
    have hlen' : min (rows.take 50).length 50 = 50 := by
      rw [List.length_take, min_eq_left h, min_self]
    rw [if_neg (by omega), if_neg (by rw [List.length_take, min_eq_left h]; omega)]
    rw [hlen, hlen']
    refine congrArg Prod.snd ?_
    exact (Hira.foldl_congr_mem (fun i hi st =>
      Hira.deepStep_take_50 rows i (List.mem_range.mp hi) st) _).symm
  · intro rows h
    unfold Hira.extractTreeItems Hira.extractTreeItemsRaw
    have hlen : min rows.length 30 = 30 := min_eq_right h
    have hlen' : min (rows.take 30).length 30 = 30 := by
      rw [List.length_take, min_eq_left h, min_self]
    rw [hlen, hlen']
    refine congrArg (Hira.dedupByText []) ?_
    exact (Hira.foldl_congr_mem (fun i hi acc =>
      Hira.treeStep_take_30 rows i (List.mem_range.mp hi) acc) _).symm
  · intro rows h
    unfold Hira.extractDetailedUnique
    have hlen : min rows.length 30 = 30 := min_eq_right h
    have hlen' : min (rows.take 30).length 30 = 30 := by
      rw [List.length_take, min_eq_left h, min_self]
    rw [if_neg (by omega), if_neg (by rw [List.length_take, min_eq_left h]; omega)]
    rw [hlen, hlen']
    refine congrArg Prod.snd ?_
    exact (Hira.foldl_congr_mem (fun i hi st =>
      Hira.detailedStep_take_30 rows i (List.mem_range.mp hi) st) _).symm
  · exact fun slots base it h => Hira.getLevelItems_index_le slots base it h

/-- Long row list (60 identical visible rows) for the C10 witness. -/
def c10rows : List Hira.RowObs :=
  List.replicate 60 (Hira.RowObs.row true (some "가나다"))

/-- Row list of length 35 for the 30-bounded variants of the C10 witness. -/
def c10rows30 : List Hira.RowObs :=
  List.replicate 35 (Hira.RowObs.row true (some "마바사"))

/-- Single-item slot table for the index-bound part of the C10 witness. -/
def c10slotsOne : Nat → Hira.Slot := fun i =>
  if i = 0 then .textOf "A 일" else .missing

/-- C10 witness: the amended theorem applied at concrete inputs. -/
theorem extraction_bounded_scan_witness :
    Hira.extractCurrentLevelItems c10rows
        = Hira.extractCurrentLevelItems (c10rows.take 50) ∧
      Hira.extractTreeItems c10rows30
        = Hira.extractTreeItems (c10rows30.take 30) ∧
      Hira.extractDetailedUnique c10rows30
        = Hira.extractDetailedUnique (c10rows30.take 30) ∧
      (Hira.mkHItem "g" 0 "A 일").index ≤ 1009 := by
  refine ⟨extraction_bounded_scan.1 c10rows (by decide),
    extraction_bounded_scan.2.1 c10rows30 (by decide),
    extraction_bounded_scan.2.2.1 c10rows30 (by decide),
    extraction_bounded_scan.2.2.2 c10slotsOne "g" _ (by decide)⟩

/-- C4 witness: the theorem applied to the concrete layout `c4slots`. -/
theorem get_level_items_sparse_slots_witness :
    Hira.getLevelItems c4slots "grd_" =
      [Hira.mkHItem "grd_" 0 "00 일반원칙", Hira.mkHItem "grd_" 1 "01 가산율",
        Hira.mkHItem "grd_" 2 "02 기본진료료", Hira.mkHItem "grd_" 5 "05 주사료",
        Hira.mkHItem "grd_" 9 "09 처치료"] := by
  exact get_level_items_sparse_slots c4slots "grd_" _ _ _ _ _
    (by decide) (by decide) (by decide) (by decide) (by decide)
    (by decide) (by decide) (by decide) (by decide) (by decide)
    (by decide) (by decide) (by decide) (by decide) (by decide)
    (by decide)
